import Mathlib

/-!
Shallow embedding of the ONLINE-BOARD notice-board application's core logic:
the content screener and sanitizer (src/lib/contentModeration.ts), the notice
approve/reject handlers (NoticeCard component), the view tracker
(src/pages/PublicNotices.tsx), the notice-creation pipeline
(src/components/CreateNoticeDialog.tsx), the signup trigger
(supabase migration, handle_new_user) and the file-upload hook
(src/hooks/useFileUpload.ts).

JavaScript strings are modelled as lists of character codes (`List Nat`);
`str` converts a Lean string literal to that representation.  The three
module-level regexes of contentModeration.ts carry the JavaScript `lastIndex`
state of a global (`/g`) regex, modelled explicitly by `RegexState`.
-/

/-- Character codes of a string literal, the embedding of a JS string. -/
def str (s : String) : List Nat := s.toList.map Char.toNat

/-- JS whitespace class `\s` (also the set trimmed by String.trim). -/
def isWsCode (c : Nat) : Bool :=
  c == 32 || c == 9 || c == 10 || c == 11 || c == 12 || c == 13 ||
  c == 160 || c == 0x1680 || (0x2000 ≤ c && c ≤ 0x200A) ||
  c == 0x2028 || c == 0x2029 || c == 0x202F || c == 0x205F ||
  c == 0x3000 || c == 0xFEFF

/-- ASCII digit, the regex class `\d`. -/
def isDigitCode (c : Nat) : Bool := 48 ≤ c && c ≤ 57

/-- Regex word character `\w` (used by the word-boundary `\b`). -/
def isWordCode (c : Nat) : Bool :=
  (65 ≤ c && c ≤ 90) || (97 ≤ c && c ≤ 122) || isDigitCode c || c == 95

/-- ASCII uppercase letter, the regex class `[A-Z]`. -/
def isUpperCode (c : Nat) : Bool := 65 ≤ c && c ≤ 90

/-- `String.prototype.toLowerCase` on one character code (ASCII range;
no Unicode code point lower-cases to an ASCII uppercase letter, so this is
faithful for every property about `[A-Z]` runs). -/
def lowerCode (c : Nat) : Nat := if 65 ≤ c ∧ c ≤ 90 then c + 32 else c

/-- `String.prototype.toLowerCase` on a whole string. -/
def lowerStr (s : List Nat) : List Nat := s.map lowerCode

/-- Does the string start with the given needle (JS `startsWith`)? -/
def startsWith : List Nat → List Nat → Bool
  | [], _ => true
  | _ :: _, [] => false
  | a :: as, b :: bs => a == b && startsWith as bs

/-- JS `String.prototype.includes`: does `hay` contain `needle` as a
contiguous substring? -/
def containsStr (needle : List Nat) : List Nat → Bool
  | [] => startsWith needle []
  | c :: t => startsWith needle (c :: t) || containsStr needle t

/-- `Array.prototype.join` with a separator. -/
def joinSep (sep : List Nat) : List (List Nat) → List Nat
  | [] => []
  | [w] => w
  | w :: rest => w ++ sep ++ joinSep sep rest

/-- Length of the leading run of non-whitespace characters
(greedy `[^\s]+` at the current position). -/
def countNonWs : List Nat → Nat
  | [] => 0
  | c :: rest => if isWsCode c then 0 else countNonWs rest + 1

/-- Length of the leading run of ASCII digits (greedy `\d*`). -/
def countDigits : List Nat → Nat
  | [] => 0
  | c :: rest => if isDigitCode c then countDigits rest + 1 else 0

/-- Length of the leading run of ASCII uppercase letters (greedy `[A-Z]*`). -/
def countUpper : List Nat → Nat
  | [] => 0
  | c :: rest => if isUpperCode c then countUpper rest + 1 else 0

/-- Match `:\/\/[^\s]+` at the head of the string, returning the number of
characters consumed. -/
def checkScheme : List Nat → Option Nat
  | 58 :: 47 :: 47 :: rest =>
    let k := countNonWs rest
    if 1 ≤ k then some (3 + k) else none
  | _ => none

/-- Match the URL pattern `https?:\/\/[^\s]+` (with the `i` flag) at the head
of the string: `http`, a greedy optional `s` (with backtracking), `://`, then
at least one non-whitespace character. Returns the match length. -/
def urlAt (s : List Nat) : Option Nat :=
  match s with
  | a :: b :: c :: d :: rest =>
    if lowerCode a == 104 && lowerCode b == 116 &&
       lowerCode c == 116 && lowerCode d == 112 then
      match rest with
      | [] => none
      | e :: rest2 =>
        if lowerCode e == 115 then
          match checkScheme rest2 with
          | some k => some (5 + k)
          | none =>
            match checkScheme (e :: rest2) with
            | some k => some (4 + k)
            | none => none
        else
          match checkScheme (e :: rest2) with
          | some k => some (4 + k)
          | none => none
    else none
  | _ => none

/-- Match `\b\d{10,}\b` at the head of the string (`prev` is the character
just before the current position, for the left word boundary).  The digit run
is maximal, so the trailing `\b` fails exactly when the run is followed by a
letter or underscore; backtracking inside the run cannot help because a
digit-digit boundary is never a word boundary. -/
def digitsAt (prev : Option Nat) (s : List Nat) : Option Nat :=
  let preOk : Bool := match prev with
    | none => true
    | some p => !isWordCode p
  let k := countDigits s
  let postOk : Bool := match s.drop k with
    | [] => true
    | c :: _ => !isWordCode c
  if preOk = true ∧ 10 ≤ k ∧ postOk = true then some k else none

/-- Match `[A-Z]{5,}` at the head of the string. -/
def capsAt (s : List Nat) : Option Nat :=
  let k := countUpper s
  if 5 ≤ k then some k else none

/-- Scan for the first match at a position `≥ pos`: JS regex search order
(leftmost match wins).  `step prev s` attempts a match at the head of the
suffix `s`, where `prev` is the character just before it.  Returns the
(start, end) indices of the match. -/
def scanG (step : Option Nat → List Nat → Option Nat) :
    Option Nat → Nat → List Nat → Option (Nat × Nat)
  | prev, pos, [] =>
    match step prev [] with
    | some k => some (pos, pos + k)
    | none => none
  | prev, pos, c :: rest =>
    match step prev (c :: rest) with
    | some k => some (pos, pos + k)
    | none => scanG step (some c) (pos + 1) rest

/-- `RegExp.prototype.test` for a `/g` regex: search from `lastIndex`; on a
match return true and set `lastIndex` to the match end, otherwise return
false and reset `lastIndex` to 0. -/
def gTest (step : Option Nat → List Nat → Option Nat)
    (text : List Nat) (lastIndex : Nat) : Bool × Nat :=
  let prev := if lastIndex == 0 then none else (text.take lastIndex).getLast?
  match scanG step prev lastIndex (text.drop lastIndex) with
  | some (_, e) => (true, e)
  | none => (false, 0)

/-- The mutable `lastIndex` fields of the three module-level
`SUSPICIOUS_PATTERNS` regexes (URLs, long numbers, excessive caps). -/
structure RegexState where
  url : Nat
  nums : Nat
  caps : Nat
deriving DecidableEq

/-- Fresh module state: every `lastIndex` is 0. -/
def initRegexState : RegexState := ⟨0, 0, 0⟩

/-- `BANNED_WORDS` from contentModeration.ts. -/
def BANNED_WORDS : List (List Nat) :=
  [str "inappropriate", str "offensive", str "spam"]

/-- Severity of the moderation verdict. -/
inductive Severity
  | low
  | medium
  | high
deriving DecidableEq

/-- The verdict object returned by `moderateContent`. -/
structure Verdict where
  approved : Bool
  issues : List (List Nat)
  severity : Severity
deriving DecidableEq

/-- JS `content.split(/\s+/)` followed by keeping only tokens of length > 2:
the maximal non-whitespace runs of length > 2 (`split` can additionally
produce empty tokens at the ends, which the length filter discards, so they
are not materialised here).  `acc` is the current token, reversed. -/
def splitWsAux (acc : List Nat) : List Nat → List (List Nat)
  | [] => if acc.isEmpty then [] else [acc.reverse]
  | c :: rest =>
    if isWsCode c then
      if acc.isEmpty then splitWsAux [] rest
      else acc.reverse :: splitWsAux [] rest
    else splitWsAux (c :: acc) rest

/-- Tokens of a string split on whitespace runs. -/
def splitWs (s : List Nat) : List (List Nat) := splitWsAux [] s

/-- `moderateContent(title, content)` from src/lib/contentModeration.ts,
together with the module-level regex state it reads and writes (the three
`SUSPICIOUS_PATTERNS` are `/g` regexes declared once at module scope, so
their `lastIndex` persists across calls). -/
def moderateContent (title content : List Nat) (rs : RegexState) :
    Verdict × RegexState :=
  let combinedText := lowerStr (title ++ 32 :: content)
  let foundBannedWords :=
    BANNED_WORDS.filter (fun w => containsStr (lowerStr w) combinedText)
  let bannedIssues :=
    if foundBannedWords.isEmpty then []
    else [str "Contains banned words: " ++ joinSep (str ", ") foundBannedWords]
  let urlRes := gTest (fun _ s => urlAt s) combinedText rs.url
  let numsRes := gTest digitsAt combinedText rs.nums
  let capsRes := gTest (fun _ s => capsAt s) combinedText rs.caps
  let patternIssues :=
    (if urlRes.1 then [str "Contains URLs"] else []) ++
    (if numsRes.1 then [str "Contains long numbers"] else []) ++
    (if capsRes.1 then [str "Contains excessive capitalization"] else [])
  let lengthIssues :=
    (if content.length < 10 then [str "Content is too short"] else []) ++
    (if 10000 < content.length then [str "Content is too long"] else [])
  let meaningfulWords := (splitWs content).filter (fun w => 2 < w.length)
  let meaningIssues :=
    if meaningfulWords.length < 3 then
      [str "Content appears to lack sufficient meaningful text"]
    else []
  let issues := bannedIssues ++ patternIssues ++ lengthIssues ++ meaningIssues
  ({ approved := issues.isEmpty
     issues := issues
     severity :=
       if 2 < issues.length then Severity.high
       else if 0 < issues.length then Severity.medium
       else Severity.low },
   { url := urlRes.2, nums := numsRes.2, caps := capsRes.2 })

/-- `sanitizeContent` step 1: `content.replace(/\r\n/g, '\n')`. -/
def replCRLF : List Nat → List Nat
  | [] => []
  | [c] => [c]
  | c :: d :: rest =>
    if c = 13 ∧ d = 10 then 10 :: replCRLF rest
    else c :: replCRLF (d :: rest)

/-- `sanitizeContent` step 2: `.replace(/\r/g, '\n')`. -/
def replCR (s : List Nat) : List Nat :=
  s.map (fun c => if c = 13 then 10 else c)

/-- Emit a pending run of `n` newlines: a run of 3 or more collapses to
exactly two newlines (the replacement `'\n\n'` of `/\n{3,}/g`). -/
def emitNL (n : Nat) : List Nat :=
  if 3 ≤ n then [10, 10] else List.replicate n 10

/-- `sanitizeContent` step 3: `.replace(/\n{3,}/g, '\n\n')`, scanning with a
pending count `n` of newlines seen since the last non-newline character. -/
def collapseNLAux (n : Nat) : List Nat → List Nat
  | [] => emitNL n
  | c :: rest =>
    if c = 10 then collapseNLAux (n + 1) rest
    else emitNL n ++ c :: collapseNLAux 0 rest

/-- Collapse every run of 3+ newlines to exactly two. -/
def collapseNL (s : List Nat) : List Nat := collapseNLAux 0 s

/-- `String.prototype.trim`: drop whitespace from both ends. -/
def trimStr (s : List Nat) : List Nat :=
  (((s.dropWhile isWsCode).reverse.dropWhile isWsCode)).reverse

/-- `sanitizeContent(content)` from src/lib/contentModeration.ts. -/
def sanitizeContent (content : List Nat) : List Nat :=
  trimStr (collapseNL (replCR (replCRLF content)))

/-- Notice status enum (notices.status CHECK constraint). -/
inductive Status
  | pending
  | approved
  | rejected
deriving DecidableEq

/-- A row of the `notices` table (the fields the lifecycle handlers touch). -/
structure Notice where
  id : Nat
  title : List Nat
  content : List Nat
  author_id : Nat
  status : Status
  approved_by : Option Nat
  approved_at : Option Nat
  updated_at : Nat
deriving DecidableEq

/-- `handleApprove` from the NoticeCard component: the update sent is
`{ status: "approved", approved_at: new Date().toISOString() }` on the row
with the notice's id; the `update_notices_updated_at` trigger additionally
sets `updated_at = NOW()`.  No other column is written and the current
status is not consulted; the caller's identity is not part of the update. -/
def handleApprove (now : Nat) (n : Notice) : Notice :=
  { n with status := Status.approved, approved_at := some now, updated_at := now }

/-- `handleReject` from the NoticeCard component: the update sent is
`{ status: "rejected" }`, plus the `updated_at` trigger. -/
def handleReject (now : Nat) (n : Notice) : Notice :=
  { n with status := Status.rejected, updated_at := now }

/-- A row of the `notice_views` table. -/
structure ViewEvent where
  notice_id : Nat
  user_id : Option Nat
  viewed_at : Nat
deriving DecidableEq

/-- `trackNoticeViews` from src/pages/PublicNotices.tsx.  Inputs: the ids of
the currently visible notices, the session's `viewed_notices` list from
sessionStorage, the current time, and whether the batch insert into
`notice_views` succeeds.  Output: the list of rows persisted by the insert
and the new session seen-list (updated only when the insert reported no
error; a failed insert persists nothing). -/
def trackNoticeViews (noticeIds viewedIds : List Nat) (now : Nat)
    (insertOk : Bool) : List ViewEvent × List Nat :=
  let newViews := (noticeIds.filter (fun i => !viewedIds.contains i)).map
    (fun i => { notice_id := i, user_id := none, viewed_at := now : ViewEvent })
  if 0 < newViews.length then
    if insertOk then
      (newViews, viewedIds ++ newViews.map (fun v => v.notice_id))
    else ([], viewedIds)
  else ([], viewedIds)

/-- The form state of CreateNoticeDialog (empty-string optionals are already
mapped to `none`, mirroring `formData.category_id || null` and the
`if (formData.expires_at)` / `if (formData.publish_at)` guards). -/
structure FormData where
  title : List Nat
  content : List Nat
  category_id : Option Nat
  priority : List Nat
  expires_at : Option (List Nat)
  publish_at : Option (List Nat)
deriving DecidableEq

/-- The moderation verdict the dialog keeps in state (null when both title
and content are empty). -/
structure ModLite where
  approved : Bool
  issues : List (List Nat)
deriving DecidableEq

/-- An attachment already uploaded, as kept in the dialog's state. -/
structure AttachmentInput where
  file_name : List Nat
  file_url : List Nat
  file_type : List Nat
  mime_type : List Nat
  file_size : Nat
deriving DecidableEq

/-- A row of the `notice_attachments` table. -/
structure AttachmentRow where
  notice_id : Nat
  file_name : List Nat
  file_url : List Nat
  file_type : List Nat
  mime_type : List Nat
  file_size : Nat
deriving DecidableEq

/-- The notice insert payload built by `handleSubmit`. -/
structure NoticeInsert where
  title : List Nat
  content : List Nat
  category_id : Option Nat
  priority : List Nat
  author_id : Nat
  status : Status
  expires_at : Option (List Nat)
  publish_at : Option (List Nat)
deriving DecidableEq

/-- The database tables `handleSubmit` writes. -/
structure Db where
  notices : List (Nat × NoticeInsert)
  notice_attachments : List AttachmentRow
deriving DecidableEq

/-- The `noticeData` object of `handleSubmit`: note the ternary
`(moderationResult && !moderationResult.approved) ? "pending" : "pending"`
yields pending on both branches. -/
def mkNoticeData (uid : Nat) (form : FormData) (modResult : Option ModLite) :
    NoticeInsert :=
  { title := form.title
    content := form.content
    category_id := form.category_id
    priority := form.priority
    author_id := uid
    status :=
      match modResult with
      | some m => if !m.approved then Status.pending else Status.pending
      | none => Status.pending
    expires_at := form.expires_at
    publish_at := form.publish_at }

/-- `handleSubmit` from CreateNoticeDialog.tsx as a transition on the
database state.  `user` is the authenticated identity (none throws "Not
authenticated"), `newId` the id the insert assigns, and the two `Ok` flags
inject the outcomes of the two persistence calls.  The attachment insert is
issued only when there are attachments; a failure there is thrown AFTER the
notice row was inserted, and nothing deletes the notice row. -/
def handleSubmit (user : Option Nat) (form : FormData)
    (modResult : Option ModLite) (attachments : List AttachmentInput)
    (newId : Nat) (noticeInsertOk attachmentInsertOk : Bool) (db : Db) :
    Except (List Nat) Unit × Db :=
  match user with
  | none => (Except.error (str "Not authenticated"), db)
  | some uid =>
    let noticeData := mkNoticeData uid form modResult
    if noticeInsertOk then
      let db1 := { db with notices := db.notices ++ [(newId, noticeData)] }
      if attachments.isEmpty then (Except.ok (), db1)
      else if attachmentInsertOk then
        (Except.ok (),
         { db1 with notice_attachments := db1.notice_attachments ++
             attachments.map (fun a =>
               { notice_id := newId
                 file_name := a.file_name
                 file_url := a.file_url
                 file_type := a.file_type
                 mime_type := a.mime_type
                 file_size := a.file_size }) })
      else (Except.error (str "attachment insert failed"), db1)
    else (Except.error (str "notice insert failed"), db)

/-- Is the result an error (a thrown exception reached the catch block)? -/
def isErr {e a : Type} : Except e a → Bool
  | Except.error _ => true
  | Except.ok _ => false

/-- The three application roles (`app_role` enum). -/
inductive Role
  | admin
  | staff
  | student
deriving DecidableEq

/-- The signup metadata of a new auth user: `raw_user_meta_data->>'full_name'`,
`raw_user_meta_data->>'name'`, `raw_user_meta_data->>'role'` and
`raw_app_meta_data->>'role'` (a role option is `some r` when the key is
present and casts to a valid `app_role`). -/
structure UserMeta where
  full_name : Option (List Nat)
  name : Option (List Nat)
  meta_role : Option Role
  app_role : Option Role
deriving DecidableEq

/-- The tables touched by the signup trigger. -/
structure AuthDb where
  profiles : List (Nat × List Nat)
  user_roles : List (Nat × Role)
deriving DecidableEq

/-- `handle_new_user()` (latest migration version): insert the profile,
count the profiles, and assign `admin` when the new profile is the only one,
otherwise the role from user metadata, app metadata, or `student`. -/
def handle_new_user (db : AuthDb) (newId : Nat) (meta : UserMeta) : AuthDb :=
  let fullName := ((meta.full_name).orElse (fun _ => meta.name)).getD (str "New User")
  let profiles2 := db.profiles ++ [(newId, fullName)]
  let userCount := profiles2.length
  let userRole :=
    if userCount = 1 then Role.admin
    else ((meta.meta_role).orElse (fun _ => meta.app_role)).getD Role.student
  { profiles := profiles2, user_roles := db.user_roles ++ [(newId, userRole)] }

/-- Coarse file type derived from the MIME prefix (`getFileType`). -/
inductive FileType
  | image
  | video
  | document
deriving DecidableEq

/-- The browser `File` fields `uploadFile` reads. -/
structure JsFile where
  name : List Nat
  mime : List Nat
  size : Nat
deriving DecidableEq

/-- `getFileType` from src/hooks/useFileUpload.ts. -/
def getFileType (f : JsFile) : FileType :=
  if startsWith (str "image/") f.mime then FileType.image
  else if startsWith (str "video/") f.mime then FileType.video
  else FileType.document

/-- A call issued to the object-storage boundary. -/
inductive StorageCall
  | upload (path : List Nat)
deriving DecidableEq

/-- The metadata object `uploadFile` resolves with. -/
structure UploadResult where
  url : List Nat
  type : FileType
  size : Nat
deriving DecidableEq

/-- The object store's `getPublicUrl` boundary call, modelled as a
deterministic URL builder over the path. -/
def getPublicUrl (path : List Nat) : List Nat :=
  str "storage/v1/object/public/attachments/" ++ path

/-- `uploadFile` from src/hooks/useFileUpload.ts: reject files over
10 * 1024 * 1024 bytes before any storage call; otherwise issue the upload
(whose outcome `uploadOk` injects) and return the metadata.  The first
component lists the storage calls issued. -/
def uploadFile (f : JsFile) (path : List Nat) (uploadOk : Bool) :
    List StorageCall × Except (List Nat) UploadResult :=
  if 10 * 1024 * 1024 < f.size then
    ([], Except.error (str "File size must be less than 10MB"))
  else if uploadOk then
    ([StorageCall.upload path],
     Except.ok { url := getPublicUrl path, type := getFileType f, size := f.size })
  else
    ([StorageCall.upload path], Except.error (str "Upload failed"))

/-- A concrete already-rejected notice. -/
def rejectedNotice : Notice :=
  { id := 1, title := str "Old notice", content := str "old content here"
    author_id := 2, status := Status.rejected
    approved_by := none, approved_at := none, updated_at := 0 }

/-- Are the first three characters all newlines? -/
def headTriple : List Nat → Bool
  | a :: b :: c :: _ => a == 10 && b == 10 && c == 10
  | _ => false

/-- Does the string contain three consecutive newlines anywhere (a match of
the pattern collapsed by `/\n\x7b3,\x7d/g`)? -/
def hasTriple : List Nat → Bool
  | a :: b :: c :: rest => (a == 10 && b == 10 && c == 10) || hasTriple (b :: c :: rest)
  | _ => false

/-- Claim C2: on a successful Approve the code sets status to approved and
the approval timestamp to now, but it never writes the approver reference:
`approved_by` keeps its previous value (the update payload does not even
mention the calling admin's identity), contradicting the claim that the
approver reference is set to the caller. -/
theorem c2_handleApprove_never_sets_approver :
    ∀ (n : Notice) (now : Nat),
      (handleApprove now n).status = Status.approved ∧
      (handleApprove now n).approved_at = some now ∧
      (handleApprove now n).approved_by = n.approved_by := by
  intro n now
  exact ⟨rfl, rfl, rfl⟩


/-- Claim C3 is false on the code: invoking Approve on an already-rejected
notice does not fail and does not leave the status unchanged — it overwrites
the status with approved (and Reject on that result overwrites it back). -/
theorem c3_counterexample_approve_overwrites_rejected :
    rejectedNotice.status = Status.rejected ∧
    (handleApprove 5 rejectedNotice).status = Status.approved ∧
    (handleReject 6 (handleApprove 5 rejectedNotice)).status = Status.rejected := by
  decide

/-- Claim C3 (amended): the Approve/Reject handlers consult neither the
current status nor any error path tied to it — they always set the status
to approved (resp. rejected), whatever the prior status; the only
pending-state gating in the code is that the UI renders the Approve/Reject
buttons solely for notices whose fetched status is pending. -/
theorem c3_amended_handlers_unconditional :
    ∀ (n : Notice) (now : Nat),
      (handleApprove now n).status = Status.approved ∧
      (handleReject now n).status = Status.rejected := by
  intro n now
  exact ⟨rfl, rfl⟩

/-- Claim C4 is false on the code: `moderateContent` reads and writes the
shared `lastIndex` of the module-level `/g` regexes, so two calls with
identical arguments can return different verdicts.  Here the first call on a
URL-carrying content flags "Contains URLs" (approved = false) and leaves
`lastIndex` past the URL; the immediately repeated call finds no match after
that offset and approves the very same content. -/
theorem c4_moderateContent_not_deterministic :
    ((moderateContent (str "") (str "visit http://x.co for more details here")
        initRegexState).1.approved = false) ∧
    ((moderateContent (str "") (str "visit http://x.co for more details here")
        initRegexState).1.issues = [str "Contains URLs"]) ∧
    ((moderateContent (str "") (str "visit http://x.co for more details here")
        (moderateContent (str "") (str "visit http://x.co for more details here")
          initRegexState).2).1.approved = true) ∧
    ((moderateContent (str "") (str "visit http://x.co for more details here")
        (moderateContent (str "") (str "visit http://x.co for more details here")
          initRegexState).2).1.issues = []) := by
  decide

/-- Claim C8: when the attachment insert fails after the notice insert
succeeded, `handleSubmit` surfaces an error, yet the notice row stays
persisted (with status pending) and no attachment rows are added — there is
no compensating rollback. -/
theorem c8_attachment_failure_keeps_notice :
    ∀ (uid : Nat) (form : FormData) (modResult : Option ModLite)
      (attachments : List AttachmentInput) (newId : Nat) (db : Db),
      attachments ≠ [] →
      isErr (handleSubmit (some uid) form modResult attachments newId true false db).1 = true ∧
      (handleSubmit (some uid) form modResult attachments newId true false db).2.notices =
        db.notices ++ [(newId, mkNoticeData uid form modResult)] ∧
      (mkNoticeData uid form modResult).status = Status.pending ∧
      (handleSubmit (some uid) form modResult attachments newId true false db).2.notice_attachments =
        db.notice_attachments := by
  intro uid form modResult attachments newId db h
  have hne : attachments.isEmpty = false := by
    cases attachments with
    | nil => exact absurd rfl h
    | cons a t => rfl
  have hstatus : (mkNoticeData uid form modResult).status = Status.pending := by
    cases modResult with
    | none => rfl
    | some m => simp [mkNoticeData]
  refine ⟨?_, ?_, hstatus, ?_⟩ <;> simp [handleSubmit, hne, isErr]

/-- Claim C8 witness: a concrete run with one attachment whose insert fails. -/
theorem c8_witness :
    ([(⟨str "a.png", str "u", str "image", str "image/png", 5⟩ : AttachmentInput)] ≠ []) ∧
    (isErr (handleSubmit (some 3)
        ⟨str "T", str "hello world content okay", none, str "normal", none, none⟩
        none [⟨str "a.png", str "u", str "image", str "image/png", 5⟩] 9 true false
        ⟨[], []⟩).1 = true ∧
      (handleSubmit (some 3)
        ⟨str "T", str "hello world content okay", none, str "normal", none, none⟩
        none [⟨str "a.png", str "u", str "image", str "image/png", 5⟩] 9 true false
        ⟨[], []⟩).2.notices =
        [] ++ [(9, mkNoticeData 3
          ⟨str "T", str "hello world content okay", none, str "normal", none, none⟩ none)] ∧
      (mkNoticeData 3
        ⟨str "T", str "hello world content okay", none, str "normal", none, none⟩ none).status =
        Status.pending ∧
      (handleSubmit (some 3)
        ⟨str "T", str "hello world content okay", none, str "normal", none, none⟩
        none [⟨str "a.png", str "u", str "image", str "image/png", 5⟩] 9 true false
        ⟨[], []⟩).2.notice_attachments = []) :=
  ⟨by decide,
   c8_attachment_failure_keeps_notice 3
     ⟨str "T", str "hello world content okay", none, str "normal", none, none⟩
     none [⟨str "a.png", str "u", str "image", str "image/png", 5⟩] 9
     ⟨[], []⟩ (by decide)⟩

/-- Claim C9: the first identity ever created is auto-assigned admin; every
later one receives the explicitly provided role if any (user metadata first,
then app metadata), and student otherwise. -/
theorem c9_first_user_admin_rest_default_student :
    ∀ (db : AuthDb) (newId : Nat) (meta : UserMeta),
      (handle_new_user db newId meta).user_roles =
        db.user_roles ++ [(newId,
          if db.profiles.isEmpty then Role.admin
          else ((meta.meta_role).orElse (fun _ => meta.app_role)).getD Role.student)] := by
  intro db newId meta
  cases hdb : db.profiles with
  | nil => simp [handle_new_user, hdb]
  | cons p ps => simp [handle_new_user, hdb]

/-- Claim C10: a file strictly larger than 10485760 bytes is rejected before
any storage call (no upload issued, no metadata produced); a file at or
below the limit proceeds to the upload call. -/
theorem c10_uploadFile_size_limit :
    ∀ (f : JsFile) (path : List Nat) (uploadOk : Bool),
      (10485760 < f.size →
        uploadFile f path uploadOk =
          ([], Except.error (str "File size must be less than 10MB"))) ∧
      (f.size ≤ 10485760 →
        (uploadFile f path uploadOk).1 = [StorageCall.upload path]) := by
  intro f path uploadOk
  constructor
  · intro h
    unfold uploadFile
    rw [if_pos (by omega : 10 * 1024 * 1024 < f.size)]
  · intro h
    unfold uploadFile
    rw [if_neg (by omega : ¬10 * 1024 * 1024 < f.size)]
    cases uploadOk <;> simp

/-- Claim C10 witness: a 10485761-byte file is rejected with no storage
call; a 10485760-byte file reaches the upload call. -/
theorem c10_witness :
    ((10485760 : Nat) < 10485761 ∧
      uploadFile ⟨str "a.pdf", str "application/pdf", 10485761⟩ (str "p") true =
        ([], Except.error (str "File size must be less than 10MB"))) ∧
    ((10485760 : Nat) ≤ 10485760 ∧
      (uploadFile ⟨str "b.png", str "image/png", 10485760⟩ (str "q") true).1 =
        [StorageCall.upload (str "q")]) :=
  ⟨⟨by norm_num,
    (c10_uploadFile_size_limit ⟨str "a.pdf", str "application/pdf", 10485761⟩
      (str "p") true).1 (by norm_num)⟩,
   ⟨by norm_num,
    (c10_uploadFile_size_limit ⟨str "b.png", str "image/png", 10485760⟩
      (str "q") true).2 (by norm_num)⟩⟩

/-- Counting occurrences in a duplicate-free list: an absent element occurs
zero times. -/
lemma countP_beq_zero_of_not_mem {i : Nat} :
    ∀ {l : List Nat}, i ∉ l → l.countP (fun x => x == i) = 0 := by
  intro l
  induction l with
  | nil => intro _; rfl
  | cons a t ih =>
    intro h
    have ha : (a == i) = false := by
      simp only [beq_eq_false_iff_ne, ne_eq]
      intro hai
      exact h (hai ▸ List.mem_cons_self a t)
    simp [List.countP_cons, ha, ih (fun ht => h (List.mem_cons_of_mem a ht))]

/-- Counting occurrences in a duplicate-free list: a present element occurs
exactly once. -/
lemma countP_beq_one_of_nodup {i : Nat} :
    ∀ {l : List Nat}, l.Nodup → i ∈ l → l.countP (fun x => x == i) = 1 := by
  intro l
  induction l with
  | nil => intro _ h; cases h
  | cons a t ih =>
    intro hnd hmem
    rcases List.mem_cons.mp hmem with h | h
    · have : i ∉ t := h ▸ (List.nodup_cons.mp hnd).1
      simp [List.countP_cons, h.symm, countP_beq_zero_of_not_mem this]
    · have ha : (a == i) = false := by
        simp only [beq_eq_false_iff_ne, ne_eq]
        intro hai
        exact (List.nodup_cons.mp hnd).1 (hai ▸ h)
      simp [List.countP_cons, ha, ih (List.nodup_cons.mp hnd).2 h]

/-- With a successful insert, `trackNoticeViews` persists exactly the rows
for the not-yet-seen ids and appends those ids to the seen-list (also when
there is nothing new, in which case both effects are empty). -/
lemma trackNoticeViews_ok_eq (ids viewed : List Nat) (now : Nat) :
    trackNoticeViews ids viewed now true =
      ((ids.filter (fun i => !viewed.contains i)).map
        (fun i => { notice_id := i, user_id := none, viewed_at := now : ViewEvent }),
       viewed ++ ids.filter (fun i => !viewed.contains i)) := by
  unfold trackNoticeViews
  by_cases h : 0 <
      ((ids.filter (fun i => !viewed.contains i)).map
        (fun i => { notice_id := i, user_id := none, viewed_at := now : ViewEvent })).length
  · simp only [h, if_pos, if_true, List.map_map]
    have : ((fun v : ViewEvent => v.notice_id) ∘
        (fun i => { notice_id := i, user_id := none, viewed_at := now : ViewEvent })) =
        fun i : Nat => i := rfl
    rw [this, List.map_id']
  · have hlen : ((ids.filter (fun i => !viewed.contains i)).map
        (fun i => { notice_id := i, user_id := none, viewed_at := now : ViewEvent })).length = 0 := by
      omega
    have hnil := List.eq_nil_of_length_eq_zero hlen
    have hfil : ids.filter (fun i => !viewed.contains i) = [] :=
      List.map_eq_nil_iff.mp hnil
    rw [if_neg h, hfil]
    simp

/-- Claim C7: given a batch of distinct visible notice ids and the session's
seen-set, a successful run persists exactly one ViewEvent for each id not in
the seen-set (with no viewer identity) and none for ids already in it, and
extends the seen-set with exactly the newly recorded ids. -/
theorem c7_trackNoticeViews_dedup :
    ∀ (ids viewed : List Nat) (now : Nat), ids.Nodup →
      (∀ i ∈ ids, i ∉ viewed →
        (trackNoticeViews ids viewed now true).1.countP
          (fun e => e.notice_id == i) = 1) ∧
      (∀ i ∈ viewed,
        (trackNoticeViews ids viewed now true).1.countP
          (fun e => e.notice_id == i) = 0) ∧
      (∀ e ∈ (trackNoticeViews ids viewed now true).1, e.user_id = none) ∧
      (trackNoticeViews ids viewed now true).2 =
        viewed ++ ids.filter (fun i => !viewed.contains i) := by
  intro ids viewed now hnd
  rw [trackNoticeViews_ok_eq]
  refine ⟨?_, ?_, ?_, rfl⟩
  · intro i hi hnv
    rw [List.countP_map]
    show (ids.filter (fun i => !viewed.contains i)).countP (fun x => x == i) = 1
    refine countP_beq_one_of_nodup (hnd.filter _) (List.mem_filter.mpr ⟨hi, ?_⟩)
    simpa using hnv
  · intro i hiv
    rw [List.countP_map]
    show (ids.filter (fun i => !viewed.contains i)).countP (fun x => x == i) = 0
    refine countP_beq_zero_of_not_mem ?_
    intro hmem
    have := (List.mem_filter.mp hmem).2
    simp at this
    exact this hiv
  · intro e he
    rcases List.mem_map.mp he with ⟨i, _, rfl⟩
    rfl

/-- Claim C7 witness: visible ids [1, 2] with session-seen [1] record exactly
one event (for 2, anonymous) and update the seen-list to [1, 2]. -/
theorem c7_witness :
    ([1, 2] : List Nat).Nodup ∧
    (trackNoticeViews [1, 2] [1] 7 true).1.countP (fun e => e.notice_id == 2) = 1 ∧
    (trackNoticeViews [1, 2] [1] 7 true).1.countP (fun e => e.notice_id == 1) = 0 ∧
    (trackNoticeViews [1, 2] [1] 7 true).2 = [1, 2] :=
  ⟨by decide,
   (c7_trackNoticeViews_dedup [1, 2] [1] 7 (by decide)).1 2 (by decide) (by decide),
   (c7_trackNoticeViews_dedup [1, 2] [1] 7 (by decide)).2.1 1 (by decide),
   ((c7_trackNoticeViews_dedup [1, 2] [1] 7 (by decide)).2.2.2).trans (by decide)⟩

/-- A string starts with itself (prefix check against itself plus a tail). -/
lemma startsWith_self_append : ∀ (w t : List Nat), startsWith w (w ++ t) = true := by
  intro w
  induction w with
  | nil => intro t; rfl
  | cons a as ih => intro t; simp [startsWith, ih]

/-- `includes` finds a needle that literally occurs between two parts. -/
lemma containsStr_append : ∀ (pre w t : List Nat), containsStr w (pre ++ w ++ t) = true := by
  intro pre
  induction pre with
  | nil =>
    intro w t
    simp only [List.nil_append]
    cases hw : w ++ t with
    | nil =>
      rcases List.append_eq_nil.mp hw with ⟨rfl, rfl⟩
      rfl
    | cons c t2 =>
      have hsw := startsWith_self_append w t
      rw [hw] at hsw
      simp [containsStr, hsw]
  | cons p ps ih =>
    intro w t
    simp only [List.cons_append]
    have h2 : containsStr w (ps ++ (w ++ t)) = true := by
      rw [← List.append_assoc]
      exact ih w t
    simp [containsStr, h2]

/-- `join` keeps every element as a contiguous segment of the result. -/
lemma joinSep_split :
    ∀ (sep : List Nat) (l : List (List Nat)) (w : List Nat), w ∈ l →
      ∃ a b, joinSep sep l = a ++ w ++ b := by
  intro sep l
  induction l with
  | nil => intro w h; cases h
  | cons x rest ih =>
    intro w h
    cases rest with
    | nil =>
      have : w = x := by simpa using h
      subst this
      exact ⟨[], [], by simp [joinSep]⟩
    | cons y rest2 =>
      rcases List.mem_cons.mp h with h1 | h2
      · subst h1
        refine ⟨[], sep ++ joinSep sep (y :: rest2), ?_⟩
        simp [joinSep, List.append_assoc]
      · rcases ih w h2 with ⟨a, b, hab⟩
        refine ⟨x ++ sep ++ a, b, ?_⟩
        simp [joinSep, hab, List.append_assoc]

/-- Claim C5: whenever the combined title-plus-content text contains a banned
word in any casing, the verdict is not approved and some issue string lists
that word (as a substring of the "Contains banned words" message). -/
theorem c5_banned_word_flags :
    ∀ (title content : List Nat) (rs : RegexState) (w pre mid post : List Nat),
      w ∈ BANNED_WORDS →
      title ++ 32 :: content = pre ++ mid ++ post →
      lowerStr mid = w →
      (moderateContent title content rs).1.approved = false ∧
      ∃ issue ∈ (moderateContent title content rs).1.issues,
        containsStr w issue = true := by
  intro title content rs w pre mid post hw hsplit hmid
  have hlw : lowerStr w = w := by
    have hw' : w = str "inappropriate" ∨ w = str "offensive" ∨ w = str "spam" := by
      simpa [BANNED_WORDS] using hw
    rcases hw' with rfl | rfl | rfl <;> decide
  have hlowsplit : lowerStr (title ++ 32 :: content) = lowerStr pre ++ w ++ lowerStr post := by
    rw [hsplit]
    simp only [lowerStr, List.map_append]
    rw [show List.map lowerCode mid = w from hmid]
  have hcont : containsStr (lowerStr w) (lowerStr (title ++ 32 :: content)) = true := by
    rw [hlw, hlowsplit]
    exact containsStr_append _ _ _
  have hfb : w ∈ BANNED_WORDS.filter
      (fun v => containsStr (lowerStr v) (lowerStr (title ++ 32 :: content))) :=
    List.mem_filter.mpr ⟨hw, hcont⟩
  have hne : (BANNED_WORDS.filter
      (fun v => containsStr (lowerStr v) (lowerStr (title ++ 32 :: content)))).isEmpty = false := by
    cases hfil : BANNED_WORDS.filter
        (fun v => containsStr (lowerStr v) (lowerStr (title ++ 32 :: content))) with
    | nil => rw [hfil] at hfb; cases hfb
    | cons z zs => rfl
  rcases joinSep_split (str ", ")
      (BANNED_WORDS.filter
        (fun v => containsStr (lowerStr v) (lowerStr (title ++ 32 :: content)))) w hfb with
    ⟨a, b, hab⟩
  simp only [moderateContent, hne, Bool.false_eq_true, if_false, List.cons_append,
    List.nil_append]
  constructor
  · rfl
  · refine ⟨str "Contains banned words: " ++ joinSep (str ", ")
      (BANNED_WORDS.filter
        (fun v => containsStr (lowerStr v) (lowerStr (title ++ 32 :: content)))), ?_, ?_⟩
    · exact List.mem_cons_self _ _
    · rw [hab]
      rw [show str "Contains banned words: " ++ (a ++ w ++ b) =
        (str "Contains banned words: " ++ a) ++ w ++ b by simp [List.append_assoc]]
      exact containsStr_append _ _ _

/-- Claim C5 witness: the combined text "free SpAm offer this is a generous
offer today" contains the banned word "spam" as the casing variant "SpAm";
the verdict is not approved and an issue lists the word. -/
theorem c5_witness :
    (str "spam" ∈ BANNED_WORDS) ∧
    (moderateContent (str "free SpAm offer") (str "this is a generous offer today")
      initRegexState).1.approved = false ∧
    ∃ issue ∈ (moderateContent (str "free SpAm offer") (str "this is a generous offer today")
      initRegexState).1.issues, containsStr (str "spam") issue = true :=
  ⟨by decide,
   c5_banned_word_flags (str "free SpAm offer") (str "this is a generous offer today")
     initRegexState (str "spam") (str "free ") (str "SpAm")
     (str " offer this is a generous offer today")
     (by decide) (by decide) (by decide)⟩

/-- Lower-casing never produces an ASCII uppercase letter. -/
lemma isUpper_lowerCode (c : Nat) : isUpperCode (lowerCode c) = false := by
  simp only [isUpperCode, lowerCode]
  split <;>
    (rename_i h; simp only [Bool.and_eq_false_iff, decide_eq_false_iff_not]; omega)

/-- Every character of a lower-cased string fails `[A-Z]`. -/
lemma lowerStr_no_upper (s : List Nat) : ∀ c ∈ lowerStr s, isUpperCode c = false := by
  intro c hc
  rcases List.mem_map.mp hc with ⟨x, _, rfl⟩
  exact isUpper_lowerCode x

/-- `[A-Z]{5,}` cannot match at the head of a string whose characters are all
non-uppercase. -/
lemma capsAt_none {s : List Nat} (h : ∀ c ∈ s, isUpperCode c = false) :
    capsAt s = none := by
  cases s with
  | nil => rfl
  | cons c rest =>
    have hc : isUpperCode c = false := h c (List.mem_cons_self c rest)
    simp [capsAt, countUpper, hc]

/-- The global scan for `[A-Z]{5,}` finds nothing in a string with no
uppercase letters. -/
lemma scanG_caps_none : ∀ (l : List Nat) (prev : Option Nat) (pos : Nat),
    (∀ c ∈ l, isUpperCode c = false) →
    scanG (fun _ s => capsAt s) prev pos l = none := by
  intro l
  induction l with
  | nil => intro prev pos _; simp [scanG, capsAt, countUpper]
  | cons c rest ih =>
    intro prev pos h
    have hnone : capsAt (c :: rest) = none := capsAt_none h
    simp only [scanG, hnone]
    exact ih _ _ (fun d hd => h d (List.mem_cons_of_mem c hd))

/-- `test` of the caps regex returns false (and resets `lastIndex`) on a
string with no uppercase letters, whatever the current `lastIndex`. -/
lemma gTest_caps_false (text : List Nat) (li : Nat)
    (h : ∀ c ∈ text, isUpperCode c = false) :
    gTest (fun _ s => capsAt s) text li = (false, 0) := by
  simp only [gTest]
  rw [scanG_caps_none (text.drop li) _ li (fun c hc => h c (List.mem_of_mem_drop hc))]

/-- Taking as many elements as a prefix is long recovers the prefix. -/
lemma take_len_append : ∀ (a t : List Nat), (a ++ t).take a.length = a := by
  intro a t
  induction a with
  | nil => rfl
  | cons x xs ih => simp [ih]

/-- Membership in a conditional singleton forces the equality. -/
lemma mem_ite_singleton {x y : List Nat} {c : Prop} [Decidable c]
    (h : x ∈ (if c then [y] else ([] : List (List Nat)))) : x = y := by
  split at h
  · simpa using h
  · exact absurd h (List.not_mem_nil x)

/-- Membership in a conditional singleton (else-branch variant). -/
lemma mem_ite_singleton_neg {x y : List Nat} {c : Prop} [Decidable c]
    (h : x ∈ (if c then ([] : List (List Nat)) else [y])) : x = y := by
  split at h
  · exact absurd h (List.not_mem_nil x)
  · simpa using h

/-- The caps message can never be a member of the issues list: the combined
text is lower-cased before the `[A-Z]{5,}` pattern is tested. -/
lemma caps_issue_not_mem :
    ∀ (title content : List Nat) (rs : RegexState),
      str "Contains excessive capitalization" ∉
        (moderateContent title content rs).1.issues := by
  intro title content rs hmem
  have hcaps : gTest (fun _ s => capsAt s) (lowerStr (title ++ 32 :: content)) rs.caps
      = (false, 0) :=
    gTest_caps_false _ _ (lowerStr_no_upper _)
  simp only [moderateContent, hcaps, List.mem_append] at hmem
  have hu : str "Contains excessive capitalization" ≠ str "Contains URLs" := by decide
  have hn : str "Contains excessive capitalization" ≠ str "Contains long numbers" := by
    decide
  have hs : str "Contains excessive capitalization" ≠ str "Content is too short" := by
    decide
  have hl : str "Contains excessive capitalization" ≠ str "Content is too long" := by
    decide
  have hm : str "Contains excessive capitalization" ≠
      str "Content appears to lack sufficient meaningful text" := by decide
  rcases hmem with ((hb | (hpu | hpn) | hpc) | hl1 | hl2) | hme
  · have heq := mem_ite_singleton_neg hb
    have htake : (str "Contains excessive capitalization").take 23 =
        str "Contains banned words: " := by
      rw [heq]
      have hlen : (str "Contains banned words: ").length = 23 := by decide
      rw [← hlen, take_len_append]
    exact absurd htake (by decide)
  · exact hu (mem_ite_singleton hpu)
  · exact hn (mem_ite_singleton hpn)
  · simp at hpc
  · exact hs (mem_ite_singleton hl1)
  · exact hl (mem_ite_singleton hl2)
  · exact hm (mem_ite_singleton hme)

/-- Claim C1 is false on the code: because `moderateContent` lower-cases the
combined text before testing the `[A-Z]{5,}` pattern, an input with a run of
five or more consecutive uppercase letters never yields the message
"Contains excessive capitalization" — the issues list never contains it,
for any input and any regex state. -/
theorem c1_caps_issue_never_raised :
    ∀ (title content : List Nat) (rs : RegexState),
      (moderateContent title content rs).1.issues.contains
        (str "Contains excessive capitalization") = false := by
  intro title content rs
  cases hb : (moderateContent title content rs).1.issues.contains
      (str "Contains excessive capitalization")
  · rfl
  · exact absurd (List.elem_iff.mp hb) (caps_issue_not_mem title content rs)

/-- After `.replace(/\r/g, '\n')` no carriage return remains. -/
lemma replCR_no_cr (s : List Nat) : 13 ∉ replCR s := by
  intro h
  rcases List.mem_map.mp h with ⟨x, _, hx⟩
  by_cases hx13 : x = 13
  · rw [if_pos hx13] at hx; omega
  · rw [if_neg hx13] at hx; exact hx13 hx

/-- Collapsing newline runs introduces only newlines. -/
lemma collapseNLAux_mem :
    ∀ (s : List Nat) (n c : Nat), c ∈ collapseNLAux n s → c = 10 ∨ c ∈ s := by
  intro s
  induction s with
  | nil =>
    intro n c h
    left
    simp only [collapseNLAux, emitNL] at h
    by_cases hn : 3 ≤ n
    · rw [if_pos hn] at h
      simpa using h
    · rw [if_neg hn] at h
      exact List.eq_of_mem_replicate h
  | cons d rest ih =>
    intro n c h
    simp only [collapseNLAux] at h
    by_cases hd : d = 10
    · rw [if_pos hd] at h
      rcases ih (n + 1) c h with h10 | hm
      · exact Or.inl h10
      · exact Or.inr (List.mem_cons_of_mem d hm)
    · rw [if_neg hd] at h
      rcases List.mem_append.mp h with he | hc
      · left
        simp only [emitNL] at he
        by_cases hn : 3 ≤ n
        · rw [if_pos hn] at he
          simpa using he
        · rw [if_neg hn] at he
          exact List.eq_of_mem_replicate he
      · rcases List.mem_cons.mp hc with rfl | ht
        · exact Or.inr (List.mem_cons_self c rest)
        · rcases ih 0 c ht with h10 | hm
          · exact Or.inl h10
          · exact Or.inr (List.mem_cons_of_mem d hm)

/-- Trimming only removes characters. -/
lemma trimStr_mem {c : Nat} {s : List Nat} (h : c ∈ trimStr s) : c ∈ s := by
  simp only [trimStr, List.mem_reverse] at h
  have h1 := (List.dropWhile_sublist isWsCode).subset h
  rw [List.mem_reverse] at h1
  exact (List.dropWhile_sublist isWsCode).subset h1

/-- No carriage return survives sanitization. -/
lemma sanitize_no_cr (x : List Nat) : 13 ∉ sanitizeContent x := by
  intro h
  have h1 := trimStr_mem h
  rcases collapseNLAux_mem _ 0 13 h1 with h10 | hm
  · omega
  · exact replCR_no_cr (replCRLF x) hm

/-- `.replace(/\r\n/g, '\n')` is the identity on strings with no CR. -/
lemma replCRLF_eq_self : ∀ {s : List Nat}, 13 ∉ s → replCRLF s = s := by
  intro s
  induction s with
  | nil => intro _; rfl
  | cons c rest ih =>
    intro h
    have hc : c ≠ 13 := fun hc => h (hc ▸ List.mem_cons_self c rest)
    have hrest : 13 ∉ rest := fun hr => h (List.mem_cons_of_mem c hr)
    cases rest with
    | nil => rfl
    | cons d rest2 =>
      show replCRLF (c :: d :: rest2) = c :: d :: rest2
      rw [replCRLF]
      rw [if_neg (fun hcd => hc hcd.1)]
      rw [ih hrest]

/-- `.replace(/\r/g, '\n')` is the identity on strings with no CR. -/
lemma replCR_eq_self {s : List Nat} (h : 13 ∉ s) : replCR s = s := by
  unfold replCR
  have hcg : ∀ c ∈ s, (if c = 13 then 10 else c) = c := by
    intro c hc
    apply if_neg
    intro h13
    subst h13
    exact h hc
  rw [List.map_congr_left hcg, List.map_id']

/-- From a false disjunction, the left part is false. -/
lemma or_false_left {a b : Bool} (h : (a || b) = false) : a = false := by
  cases a
  · rfl
  · simp at h

/-- From a false disjunction, the right part is false. -/
lemma or_false_right {a b : Bool} (h : (a || b) = false) : b = false := by
  cases b
  · rfl
  · simp at h

/-- A head window starting with a non-newline is not a newline triple. -/
lemma headTriple_ne {c : Nat} (hc : c ≠ 10) : ∀ t, headTriple (c :: t) = false := by
  intro t
  cases t with
  | nil => rfl
  | cons b t2 =>
    cases t2 with
    | nil => rfl
    | cons d t3 =>
      show (c == 10 && b == 10 && d == 10) = false
      have hcb : (c == 10) = false := by simpa using hc
      simp [hcb]

/-- One step of the sliding-window characterisation of `hasTriple`. -/
lemma hasTriple_cons_eq (x : Nat) (t : List Nat) :
    hasTriple (x :: t) = (headTriple (x :: t) || hasTriple t) := by
  cases t with
  | nil => rfl
  | cons y t2 =>
    cases t2 with
    | nil => rfl
    | cons z t3 => rfl

/-- A triple in the tail is a triple in the whole. -/
lemma hasTriple_cons_of (x : Nat) {t : List Nat} (h : hasTriple t = true) :
    hasTriple (x :: t) = true := by
  rw [hasTriple_cons_eq, h, Bool.or_true]

/-- A triple survives extension on the left. -/
lemma hasTriple_append_left {t : List Nat} (h : hasTriple t = true) :
    ∀ u, hasTriple (u ++ t) = true := by
  intro u
  induction u with
  | nil => simpa using h
  | cons a u2 ih =>
    simp only [List.cons_append]
    exact hasTriple_cons_of a ih

/-- A triple survives extension on the right. -/
lemma hasTriple_append_right :
    ∀ (t z : List Nat), hasTriple t = true → hasTriple (t ++ z) = true := by
  intro t
  induction t with
  | nil => intro z h; exact absurd h (by decide)
  | cons x t2 ih =>
    intro z h
    rw [hasTriple_cons_eq] at h
    simp only [List.cons_append]
    rw [hasTriple_cons_eq]
    rcases (by simpa using h :
        headTriple (x :: t2) = true ∨ hasTriple t2 = true) with h1 | h2
    · cases t2 with
      | nil => exact absurd h1 (by simp [headTriple])
      | cons y t3 =>
        cases t3 with
        | nil => exact absurd h1 (by simp [headTriple])
        | cons d t4 =>
          simp only [List.cons_append]
          have hsame : headTriple (x :: y :: d :: (t4 ++ z)) =
              headTriple (x :: y :: d :: t4) := rfl
          rw [hsame, h1, Bool.true_or]
    · rw [ih z h2, Bool.or_true]

/-- A triple inside a contiguous segment is a triple of the whole string. -/
lemma hasTriple_infix (u t v : List Nat) (h : hasTriple t = true) :
    hasTriple (u ++ t ++ v) = true := by
  rw [List.append_assoc]
  exact hasTriple_append_left (hasTriple_append_right t v h) u

/-- Strings shorter than three characters have no triple. -/
lemma hasTriple_short : ∀ {l : List Nat}, l.length < 3 → hasTriple l = false := by
  intro l
  cases l with
  | nil => intro _; rfl
  | cons a t =>
    cases t with
    | nil => intro _; rfl
    | cons b t2 =>
      cases t2 with
      | nil => intro _; rfl
      | cons c t3 =>
        intro h
        simp only [List.length_cons] at h
        omega

/-- Three or more pending newlines followed by anything contain a triple. -/
lemma hasTriple_replicate3 {n : Nat} (h : 3 ≤ n) :
    ∀ z, hasTriple (List.replicate n 10 ++ z) = true := by
  obtain ⟨m, rfl⟩ : ∃ m, n = m + 3 := ⟨n - 3, by omega⟩
  intro z
  simp [List.replicate_succ, hasTriple]

/-- Gluing two triple-free strings around a non-newline character yields a
triple-free string. -/
lemma noTriple_glue : ∀ (u : List Nat) (c : Nat) (v : List Nat),
    hasTriple u = false → c ≠ 10 → hasTriple v = false →
    hasTriple (u ++ c :: v) = false := by
  intro u
  induction u with
  | nil =>
    intro c v _ hc hv
    simp only [List.nil_append]
    rw [hasTriple_cons_eq, headTriple_ne hc, hv]
    rfl
  | cons x u2 ih =>
    intro c v hu hc hv
    rw [hasTriple_cons_eq] at hu
    have hu2 : hasTriple u2 = false := or_false_right hu
    have hhead : headTriple (x :: u2) = false := or_false_left hu
    simp only [List.cons_append]
    rw [hasTriple_cons_eq, ih c v hu2 hc hv, Bool.or_false]
    cases u2 with
    | nil =>
      cases v with
      | nil => rfl
      | cons w v2 =>
        show (x == 10 && c == 10 && w == 10) = false
        have hcb : (c == 10) = false := by simpa using hc
        simp [hcb]
    | cons y u3 =>
      cases u3 with
      | nil =>
        show (x == 10 && y == 10 && c == 10) = false
        have hcb : (c == 10) = false := by simpa using hc
        simp [hcb]
      | cons d u4 =>
        show (x == 10 && y == 10 && d == 10) = false
        exact hhead

/-- The collapse pass never leaves three consecutive newlines. -/
lemma collapse_noTriple : ∀ (s : List Nat) (n : Nat),
    hasTriple (collapseNLAux n s) = false := by
  intro s
  induction s with
  | nil =>
    intro n
    apply hasTriple_short
    simp only [collapseNLAux, emitNL]
    by_cases hn : 3 ≤ n
    · rw [if_pos hn]; decide
    · rw [if_neg hn]; simp; omega
  | cons d rest ih =>
    intro n
    simp only [collapseNLAux]
    by_cases hd : d = 10
    · rw [if_pos hd]; exact ih (n + 1)
    · rw [if_neg hd]
      refine noTriple_glue _ _ _ ?_ hd (ih 0)
      apply hasTriple_short
      simp only [emitNL]
      by_cases hn : 3 ≤ n
      · rw [if_pos hn]; decide
      · rw [if_neg hn]; simp; omega

/-- Pending newlines absorb a following newline. -/
lemma replicate_append_cons (l : List Nat) :
    ∀ n, List.replicate n 10 ++ 10 :: l = List.replicate (n + 1) 10 ++ l := by
  intro n
  induction n with
  | zero => rfl
  | succ m ih => simp [List.replicate_succ, ih]

/-- On a string whose pending-newline prefix plus remainder has no triple,
the collapse pass is the identity. -/
lemma collapse_id : ∀ (s : List Nat) (n : Nat),
    hasTriple (List.replicate n 10 ++ s) = false →
    collapseNLAux n s = List.replicate n 10 ++ s := by
  intro s
  induction s with
  | nil =>
    intro n h
    have hn : ¬3 ≤ n := by
      intro h3
      have ht := hasTriple_replicate3 h3 ([] : List Nat)
      rw [List.append_nil] at ht
      simp [ht] at h
    simp only [collapseNLAux, emitNL, if_neg hn]
    simp
  | cons d rest ih =>
    intro n h
    simp only [collapseNLAux]
    by_cases hd : d = 10
    · rw [if_pos hd]
      subst hd
      rw [replicate_append_cons] at h ⊢
      exact ih (n + 1) h
    · rw [if_neg hd]
      have hn : ¬3 ≤ n := by
        intro h3
        have ht := hasTriple_replicate3 h3 (d :: rest)
        simp [ht] at h
      have hrest : hasTriple rest = false := by
        rcases Bool.eq_false_or_eq_true (hasTriple rest) with ht | hf
        · exfalso
          have hinf := hasTriple_infix (List.replicate n 10 ++ [d]) rest [] ht
          rw [List.append_nil, List.append_assoc] at hinf
          simp only [List.singleton_append] at hinf
          rw [hinf] at h
          exact absurd h (by decide)
        · exact hf
      have hemit : emitNL n = List.replicate n 10 := by simp [emitNL, if_neg hn]
      rw [hemit, ih 0 (by simpa using hrest)]
      simp

/-- The first element surviving a `dropWhile` fails the predicate. -/
lemma dropWhile_head_false {p : Nat → Bool} :
    ∀ {l c t}, List.dropWhile p l = c :: t → p c = false := by
  intro l
  induction l with
  | nil => intro c t h; simp at h
  | cons x rest ih =>
    intro c t h
    rw [List.dropWhile_cons] at h
    by_cases hx : p x = true
    · rw [if_pos hx] at h
      exact ih h
    · rw [if_neg hx] at h
      injection h with h1 h2
      subst h1
      simpa using hx

/-- The trimmed string is a contiguous segment of the original. -/
lemma trimStr_makes_infix (s : List Nat) : ∃ a b, s = a ++ trimStr s ++ b := by
  refine ⟨s.takeWhile isWsCode,
    ((s.dropWhile isWsCode).reverse.takeWhile isWsCode).reverse, ?_⟩
  have h1 : s.takeWhile isWsCode ++ s.dropWhile isWsCode = s :=
    List.takeWhile_append_dropWhile isWsCode s
  have h2 : (s.dropWhile isWsCode).reverse.takeWhile isWsCode ++
      (s.dropWhile isWsCode).reverse.dropWhile isWsCode =
      (s.dropWhile isWsCode).reverse :=
    List.takeWhile_append_dropWhile isWsCode (s.dropWhile isWsCode).reverse
  have h3 := congrArg List.reverse h2
  rw [List.reverse_append, List.reverse_reverse] at h3
  conv_lhs => rw [← h1, ← h3]
  rw [trimStr, List.append_assoc]

/-- A right-trimmed string whose original survives a left `dropWhile`
unchanged also survives a left `dropWhile` unchanged. -/
lemma dropWhile_of_trimEnd (p : Nat → Bool) (u : List Nat)
    (h : u.dropWhile p = u) :
    ((u.reverse.dropWhile p).reverse).dropWhile p = (u.reverse.dropWhile p).reverse := by
  have h2 : u.reverse.takeWhile p ++ u.reverse.dropWhile p = u.reverse :=
    List.takeWhile_append_dropWhile p u.reverse
  have h3 := congrArg List.reverse h2
  rw [List.reverse_append, List.reverse_reverse] at h3
  obtain ⟨k, hk⟩ : ∃ k, (u.reverse.dropWhile p).reverse ++ k = u :=
    ⟨(u.reverse.takeWhile p).reverse, h3⟩
  cases hT : (u.reverse.dropWhile p).reverse with
  | nil => rfl
  | cons c t =>
    rw [hT] at hk
    have hcu : u = c :: (t ++ k) := by rw [← hk]; rfl
    by_cases hp : p c = true
    · exfalso
      rw [hcu, List.dropWhile_cons, if_pos hp] at h
      have hle : ((t ++ k).dropWhile p).length ≤ (t ++ k).length :=
        (List.dropWhile_sublist p).length_le
      have hlen := congrArg List.length h
      simp only [List.length_cons] at hlen
      omega
    · rw [List.dropWhile_cons, if_neg hp]

/-- Trimming twice equals trimming once. -/
lemma trimStr_idem (s : List Nat) : trimStr (trimStr s) = trimStr s := by
  have hw0 : (trimStr s).reverse = (s.dropWhile isWsCode).reverse.dropWhile isWsCode := by
    simp [trimStr]
  have hA : (trimStr s).dropWhile isWsCode = trimStr s :=
    dropWhile_of_trimEnd isWsCode (s.dropWhile isWsCode)
      (by rw [List.dropWhile_idempotent])
  calc trimStr (trimStr s)
      = ((trimStr s).reverse.dropWhile isWsCode).reverse := by rw [trimStr, hA]
    _ = (((s.dropWhile isWsCode).reverse.dropWhile isWsCode).dropWhile isWsCode).reverse := by
        rw [hw0]
    _ = ((s.dropWhile isWsCode).reverse.dropWhile isWsCode).reverse := by
        rw [List.dropWhile_idempotent]
    _ = trimStr s := rfl

/-- Claim C6: `sanitizeContent` is idempotent. -/
theorem c6_sanitizeContent_idempotent :
    ∀ (x : List Nat), sanitizeContent (sanitizeContent x) = sanitizeContent x := by
  intro x
  have h13 : 13 ∉ sanitizeContent x := sanitize_no_cr x
  show trimStr (collapseNL (replCR (replCRLF (sanitizeContent x)))) = sanitizeContent x
  rw [replCRLF_eq_self h13, replCR_eq_self h13]
  have hdef0 : sanitizeContent x = trimStr (collapseNL (replCR (replCRLF x))) := rfl
  have hnt : hasTriple (sanitizeContent x) = false := by
    rcases trimStr_makes_infix (collapseNL (replCR (replCRLF x))) with ⟨a, b, hab⟩
    rcases Bool.eq_false_or_eq_true (hasTriple (sanitizeContent x)) with ht | hf
    · exfalso
      rw [hdef0] at ht
      have hinf := hasTriple_infix a (trimStr (collapseNL (replCR (replCRLF x)))) b ht
      rw [← hab] at hinf
      have hcol := collapse_noTriple (replCR (replCRLF x)) 0
      simp only [collapseNL] at hinf
      rw [hinf] at hcol
      exact absurd hcol (by decide)
    · exact hf
  have hcoll : collapseNL (sanitizeContent x) = sanitizeContent x := by
    have hid := collapse_id (sanitizeContent x) 0 (by simpa using hnt)
    simpa [collapseNL] using hid
  rw [hcoll]
  rw [hdef0, trimStr_idem]
